import Mathlib

set_option maxRecDepth 40000

/-!
# Verification of the document ingestion/retrieval core (`document_processor.py`)

Shallow embedding of the `DocumentProcessor` class: Python strings are
`List Char`, Python ints are `Int` where negative values can arise
(slice/`rfind` bounds) and `Nat` elsewhere, SQLite tables are Lean lists of
row structures, and external effects (file system, hashing, format libraries,
the ChromaDB vector index) are explicit environment parameters.  The
`while` loop of `chunk_text` is embedded with explicit fuel because the
source loop does not always terminate.
-/

namespace DocProc

/-- Python `str.strip()` restricted to the whitespace characters recognised by
`Char.isWhitespace`: drop whitespace from both ends.  Used for the
`.strip()` calls in `chunk_text` and `process_document`. -/
def pyStrip (l : List Char) : List Char :=
  ((l.dropWhile Char.isWhitespace).reverse.dropWhile Char.isWhitespace).reverse

/-- Python `str.lower()` / SQLite `LOWER`, modelled on ASCII letters
(`Char.toLower`). -/
def pyLower (l : List Char) : List Char :=
  l.map Char.toLower

/-- Worker for `pySplit`: `acc` holds the reversed current token. -/
def pySplitAux : List Char → List Char → List (List Char)
  | [], acc => if acc = [] then [] else [acc.reverse]
  | c :: cs, acc =>
    if c.isWhitespace then
      if acc = [] then pySplitAux cs []
      else acc.reverse :: pySplitAux cs []
    else pySplitAux cs (c :: acc)

/-- Python `str.split()` with no argument: split on runs of whitespace,
discarding empty pieces. -/
def pySplit (l : List Char) : List (List Char) :=
  pySplitAux l []

/-- Normalise a Python slice/`rfind` index against a sequence of length `n`:
negative indices count from the end (clamped at 0), positive ones are clamped
at `n`. -/
def pyIdx (n : Nat) (i : Int) : Nat :=
  if i < 0 then ((n : Int) + i).toNat else min i.toNat n

/-- Python slice `l[s:e]`. -/
def pySlice (l : List Char) (s e : Int) : List Char :=
  (l.take (pyIdx l.length e)).drop (pyIdx l.length s)

/-- Single left-to-right scan underlying `rfind`: record the last index `i`
in `[a, b)` whose character is `c`, or keep the accumulator (initially `-1`). -/
def rfindGo (c : Char) (a b : Nat) : List Char → Nat → Int → Int
  | [], _, acc => acc
  | x :: xs, i, acc =>
    rfindGo c a b xs (i + 1) (if a ≤ i ∧ i < b ∧ x = c then (i : Int) else acc)

/-- Python `str.rfind(c, s, e)`: the largest index in the normalised range
`[s, e)` holding `c`, or `-1`. -/
def rfind (l : List Char) (c : Char) (s e : Int) : Int :=
  rfindGo c (pyIdx l.length s) (pyIdx l.length e) l 0 (-1)

/-- The window-end computation of one iteration of `chunk_text`'s loop
(source lines 174–186): `end = start + chunk_size`, then, when the right
edge is not at the end of the text, shrink to just after the last
sentence-terminal character strictly after `start`, if any. -/
def nextEnd (text : List Char) (chunkSize : Nat) (start : Int) : Int :=
  let e0 : Int := start + chunkSize
  if e0 < (text.length : Int) then
    let lastSentence :=
      max (rfind text '.' start e0)
        (max (rfind text '!' start e0) (rfind text '?' start e0))
    if lastSentence > start then lastSentence + 1 else e0
  else e0

/-- One run of the `while start < len(text)` loop body of `chunk_text`
(source lines 173–192), with explicit fuel; `none` means the fuel ran out,
i.e. the loop has not terminated within `fuel` iterations.  `start` is an
`Int` because `start = end - overlap` can go negative in Python. -/
def chunkLoop (text : List Char) (chunkSize overlap : Nat) :
    Nat → Int → List (List Char) → Option (List (List Char))
  | 0, _, _ => none
  | fuel + 1, start, chunks =>
    if start < (text.length : Int) then
      let e := nextEnd text chunkSize start
      let chunk := pyStrip (pySlice text start e)
      let chunks' := if chunk ≠ [] then chunks ++ [chunk] else chunks
      chunkLoop text chunkSize overlap fuel (e - overlap) chunks'
    else
      some chunks

/-- `DocumentProcessor.chunk_text(text, chunk_size, overlap)` with explicit
fuel for the sliding-window loop. -/
def chunkTextFuel (fuel : Nat) (text : List Char) (chunkSize overlap : Nat) :
    Option (List (List Char)) :=
  if text.length ≤ chunkSize then some [text]
  else chunkLoop text chunkSize overlap fuel 0 []

/-- The same loop as `chunkLoop`, recording the `(start, end)` window of each
iteration instead of the chunk strings; used to reason about window
offsets. -/
def chunkWindowsLoop (text : List Char) (chunkSize overlap : Nat) :
    Nat → Int → List (Int × Int) → Option (List (Int × Int))
  | 0, _, _ => none
  | fuel + 1, start, ws =>
    if start < (text.length : Int) then
      let e := nextEnd text chunkSize start
      chunkWindowsLoop text chunkSize overlap fuel (e - overlap) (ws ++ [(start, e)])
    else
      some ws

/-- The `(start, end)` windows visited by `chunk_text`'s loop on a text longer
than `chunk_size`. -/
def chunkWindows (fuel : Nat) (text : List Char) (chunkSize overlap : Nat) :
    Option (List (Int × Int)) :=
  if text.length ≤ chunkSize then some []
  else chunkWindowsLoop text chunkSize overlap fuel 0 []

/-- A row of the `documents` table (`setup_database`, lines 57–66):
`id` is the `AUTOINCREMENT` primary key, `file_hash` the content
fingerprint with a `UNIQUE` constraint. -/
structure DocRow where
  id : Nat
  filename : List Char
  fileHash : List Char
  fileType : List Char
  chunkCount : Nat
  deriving DecidableEq, Repr

/-- A row of the `chunks` table (lines 69–77). -/
structure ChunkRow where
  id : Nat
  documentId : Nat
  chunkIndex : Nat
  content : List Char
  deriving DecidableEq, Repr

/-- An entry of the ChromaDB collection: the source keys entries by
`"{document_id}_{chunk_index}"` and stores the chunk text plus
`filename`/`chunk_index` metadata (lines 278–292). -/
structure IndexEntry where
  documentId : Nat
  chunkIndex : Nat
  content : List Char
  filename : List Char
  deriving DecidableEq, Repr

/-- The persistent store: the two SQLite tables, the `AUTOINCREMENT`
counters (`DELETE FROM` does not reset them), and the semantic index
collection. -/
structure KBState where
  docs : List DocRow
  chunks : List ChunkRow
  nextDocId : Nat
  nextChunkId : Nat
  index : List IndexEntry
  deriving DecidableEq, Repr

/-- One hit of a successful ChromaDB query: chunk text, the metadata
dictionary's optional `filename` and `chunk_index` entries (the source reads
them with `metadata.get(..., default)`), and the reported distance. -/
structure SemHit where
  content : List Char
  filename : Option (List Char)
  chunkIndex : Option Nat
  distance : ℚ
  deriving DecidableEq, Repr

/-- Outcome of the semantic path of `search_knowledge` (lines 318–340):
`unavailable` when `self.chroma_client`/`self.collection` is falsy,
`error` when `collection.query` (or reading its response) raises, and
`ok hits hasDistances` for a successful response (`hasDistances` models
`'distances' in search_results`). -/
inductive SemOutcome where
  | unavailable
  | error
  | ok (hits : List SemHit) (hasDistances : Bool)
  deriving DecidableEq, Repr

/-- A result record of `search_knowledge`. -/
structure SearchResult where
  content : List Char
  filename : List Char
  chunkIndex : Nat
  relevanceScore : ℚ
  deriving DecidableEq, Repr

/-- SQLite `LIKE` pattern matching: `%` matches any run of characters
(tried on every suffix of the subject), `_` any single character, anything
else itself (both sides are already lower-cased by the source query). -/
def likeMatch : List Char → List Char → Bool
  | [], s => s.isEmpty
  | c :: ps, s =>
    if c = '%' then s.tails.any (likeMatch ps)
    else
      match s with
      | [] => false
      | x :: xs => (c = '_' || c = x) && likeMatch ps xs

/-- Python `'%'.join(tokens)`. -/
def joinPercent : List (List Char) → List Char
  | [] => []
  | [t] => t
  | t :: u :: ts => t ++ '%' :: joinPercent (u :: ts)

/-- The keyword-path pattern of `search_knowledge` (lines 347–348):
`'%' + '%'.join(query.lower().split()) + '%'`. -/
def buildPattern (query : List Char) : List Char :=
  '%' :: (joinPercent (pySplit (pyLower query)) ++ ['%'])

/-- Insert a chunk row into a list sorted by ascending `id`. -/
def insertById (c : ChunkRow) : List ChunkRow → List ChunkRow
  | [] => [c]
  | d :: ds => if c.id ≤ d.id then c :: d :: ds else d :: insertById c ds

/-- `ORDER BY c.id`: the chunk rows in ascending id order. -/
def sortById (l : List ChunkRow) : List ChunkRow :=
  l.foldr insertById []

/-- The rows produced by the keyword-path SQL query before `LIMIT`
(lines 350–357): chunks in ascending id order whose lower-cased content
matches the pattern, inner-joined with their document row (`id` is the
primary key of `documents`, so `find?` returns the unique matching row). -/
def kwRows (s : KBState) (pattern : List Char) : List (ChunkRow × DocRow) :=
  (sortById s.chunks).filterMap (fun c =>
    if likeMatch pattern (pyLower c.content) then
      (s.docs.find? (fun d => d.id == c.documentId)).map (fun d => (c, d))
    else none)

/-- The keyword fallback path of `search_knowledge` (lines 343–368). -/
def keywordSearch (s : KBState) (query : List Char) (maxResults : Nat) :
    List SearchResult :=
  ((kwRows s (buildPattern query)).take maxResults).map
    (fun cd =>
      { content := cd.1.content
        filename := cd.2.filename
        chunkIndex := cd.1.chunkIndex
        relevanceScore := 1/2 })

/-- `DocumentProcessor.search_knowledge(query, max_results)` (lines 304–368):
on a successful semantic query the hits are returned with score
`1 - distance` (distance `0` when the response has no `'distances'` key) and
the keyword path is not consulted — also when there are zero hits; when the
index is unavailable or the query raises, control falls to the keyword
path.  `hits` is the response for `n_results=max_results`. -/
def searchKnowledge (sem : SemOutcome) (s : KBState) (query : List Char)
    (maxResults : Nat) : List SearchResult :=
  match sem with
  | .ok hits hasDistances =>
    hits.map (fun h =>
      { content := h.content
        filename := h.filename.getD "Unknown".toList
        chunkIndex := h.chunkIndex.getD 0
        relevanceScore := 1 - (if hasDistances then h.distance else 0) })
  | _ => keywordSearch s query maxResults

/-- `tokensInOrder ts s`: the tokens `ts` all appear in `s`, in order, at
non-overlapping positions — the reading "all tokens appear in the content
in sequence" of the keyword-path matching. -/
def tokensInOrder : List (List Char) → List Char → Prop
  | [], _ => True
  | t :: ts, s => ∃ a b, s = a ++ t ++ b ∧ tokensInOrder ts b

/-- The record returned by `get_document_stats` (lines 370–390). -/
structure KBStats where
  totalDocuments : Nat
  totalChunks : Nat
  fileTypes : List (List Char × Nat)
  deriving DecidableEq, Repr

/-- `DocumentProcessor.get_document_stats()`: the two `COUNT(*)` queries and
the `GROUP BY file_type` counts. -/
def getDocumentStats (s : KBState) : KBStats :=
  { totalDocuments := s.docs.length
    totalChunks := s.chunks.length
    fileTypes :=
      ((s.docs.map (·.fileType)).dedup).map
        (fun t => (t, (s.docs.filter (fun d => d.fileType == t)).length)) }

/-- `DocumentProcessor.clear_knowledge_base()` (lines 392–413): one
transaction deletes every chunk row and every document row (`DELETE FROM`
does not reset the `AUTOINCREMENT` counters); then, when the ChromaDB client
is available, the collection is deleted and recreated, any failure being
caught and logged (`deleteOk` models whether that succeeded). -/
def clearKnowledgeBase (chromaAvailable deleteOk : Bool) (s : KBState) :
    KBState :=
  { docs := []
    chunks := []
    nextDocId := s.nextDocId
    nextChunkId := s.nextChunkId
    index := if chromaAvailable && deleteOk then [] else s.index }

/-- A source file as `process_document` observes it: `os.path.basename`,
`Path(...).suffix` (lower-cased by the source), and the raw bytes —
`none` models `os.path.exists(file_path)` being `False`. -/
structure FileRef where
  base : List Char
  ext : List Char
  bytes : Option (List Nat)

/-- Outcome of one of the three `extract_text_from_*` helpers: the extracted
text, or an exception (library failure / `ImportError`), which the
`except` of `process_document` turns into `False`. -/
inductive ExtractOutcome where
  | ok (text : List Char)
  | raised
  deriving DecidableEq, Repr

/-- External collaborators of `process_document`: MD5 (`calculate_file_hash`
is a pure function of the file bytes), the three format extractors, and the
ChromaDB collection (`chromaAvailable` models
`self.chroma_client and self.collection`; `chromaAddOk` whether
`collection.add` succeeds). -/
structure IngestEnv where
  hashFn : List Nat → List Char
  extractPdf : FileRef → ExtractOutcome
  extractDocx : FileRef → ExtractOutcome
  extractTxt : FileRef → ExtractOutcome
  chromaAvailable : Bool
  chromaAddOk : Bool

/-- Invoke the optional progress callback (`if progress_callback:
progress_callback(msg)`): the Bool result models returning normally
(`false` = the callback raised, which propagates to the outer `except`);
the list is the delivered message trace. -/
def invokeCb (cb : Option (List Char → Bool)) (msg : List Char) :
    Bool × List (List Char) :=
  match cb with
  | none => (true, [])
  | some k => (k msg, [msg])

/-- The extraction dispatch of `process_document` (lines 233–242): `none`
means the extension is unsupported. -/
def extractDispatch (env : IngestEnv) (f : FileRef) (fileExt : List Char) :
    Option ExtractOutcome :=
  if fileExt == ".pdf".toList then some (env.extractPdf f)
  else if fileExt == ".docx".toList then some (env.extractDocx f)
  else if fileExt == ".txt".toList then some (env.extractTxt f)
  else none

/-- `DocumentProcessor.process_document(file_path, progress_callback)`
(lines 196–302), also returning the trace of progress messages.
`chunkFuel` is the fuel for the `chunk_text` loop (`none` = that loop did
not terminate).  Steps, in source order: existence check; fingerprint;
duplicate check (returns `True` before any extraction or chunking);
callback; extraction dispatch (unsupported format, extraction exception and
empty stripped text all return `False`); callback; chunking; `INSERT` of
the document row and its chunk rows followed by `commit`; callback;
best-effort ChromaDB `add` whose failure is caught locally; `True`.
A callback that raises hits the outer `except` and yields `False` — after
the commit point the inserted rows remain. -/
def processDocumentCb (env : IngestEnv) (chunkFuel : Nat)
    (cb : Option (List Char → Bool)) (s : KBState) (f : FileRef) :
    Option (Bool × KBState × List (List Char)) :=
  match f.bytes with
  | none => some (false, s, [])
  | some bs =>
    let fileHash := env.hashFn bs
    let fileExt := pyLower f.ext
    if s.docs.any (fun d => d.fileHash == fileHash) then
      some (true, s, [])
    else
      let c1 := invokeCb cb "Extraindo texto do documento...".toList
      if !c1.1 then some (false, s, c1.2) else
      match extractDispatch env f fileExt with
      | none => some (false, s, c1.2)
      | some .raised => some (false, s, c1.2)
      | some (.ok text) =>
        if pyStrip text == [] then some (false, s, c1.2)
        else
          let c2 := invokeCb cb "Dividindo texto em chunks...".toList
          if !c2.1 then some (false, s, c1.2 ++ c2.2) else
          match chunkTextFuel chunkFuel text 1000 200 with
          | none => none
          | some cs =>
            let docId := s.nextDocId
            let doc : DocRow :=
              { id := docId, filename := f.base, fileHash := fileHash
                fileType := fileExt, chunkCount := cs.length }
            let newChunks := cs.enum.map (fun ic =>
              ChunkRow.mk (s.nextChunkId + ic.1) docId ic.1 ic.2)
            let s1 : KBState :=
              { docs := s.docs ++ [doc]
                chunks := s.chunks ++ newChunks
                nextDocId := docId + 1
                nextChunkId := s.nextChunkId + cs.length
                index := s.index }
            let c3 := invokeCb cb "Criando embeddings para busca...".toList
            if !c3.1 then some (false, s1, c1.2 ++ c2.2 ++ c3.2) else
            let s2 :=
              if env.chromaAvailable && env.chromaAddOk then
                { s1 with
                    index := s1.index ++ cs.enum.map (fun ic =>
                      IndexEntry.mk docId ic.1 ic.2 f.base) }
              else s1
            some (true, s2, c1.2 ++ c2.2 ++ c3.2)

/-- `process_document` restricted to its externally visible outcome: the
returned boolean and the resulting store. -/
def processDocument (env : IngestEnv) (chunkFuel : Nat)
    (cb : Option (List Char → Bool)) (s : KBState) (f : FileRef) :
    Option (Bool × KBState) :=
  (processDocumentCb env chunkFuel cb s f).map (fun r => (r.1, r.2.1))

/-- Number of document rows carrying a given fingerprint. -/
def hashCount (s : KBState) (h : List Char) : Nat :=
  (s.docs.filter (fun d => d.fileHash == h)).length

/-- The inner join of all chunk rows (ascending id) with their document
rows, with no content filter: what the keyword-path query returns before
`LIMIT` when the pattern matches everything. -/
def joinedRows (s : KBState) : List (ChunkRow × DocRow) :=
  (sortById s.chunks).filterMap (fun c =>
    (s.docs.find? (fun d => d.id == c.documentId)).map (fun d => (c, d)))

/-- A 1802-character text whose only sentence-terminal character sits at
index 801: with the default window of 1000 the first window ends at 802 and
every later window gets stuck — `start` stays at `802 - 200 = 602`. -/
def c1Text : List Char :=
  List.replicate 801 'a' ++ '.' :: List.replicate 1000 'a'

/-- Concrete extraction text used by the witness scenarios (the spec's
end-to-end example document). -/
def wText : List Char :=
  "Hello world. This is a test document about cats.".toList

/-- Concrete environment for witness scenarios: a fixed fingerprint,
plain-text extraction returning `wText`, no ChromaDB. -/
def wEnv : IngestEnv :=
  { hashFn := fun _ => "h1".toList
    extractPdf := fun _ => .raised
    extractDocx := fun _ => .raised
    extractTxt := fun _ => .ok wText
    chromaAvailable := false
    chromaAddOk := false }

/-- Concrete plain-text file reference for witness scenarios. -/
def wFile : FileRef :=
  { base := "doc.txt".toList, ext := ".txt".toList, bytes := some [72, 105] }

/-- The empty store (fresh database). -/
def wState0 : KBState :=
  { docs := [], chunks := [], nextDocId := 1, nextChunkId := 1, index := [] }

/-- The store after ingesting `wFile` into `wState0` under `wEnv`. -/
def wState1 : KBState :=
  { docs := [⟨1, "doc.txt".toList, "h1".toList, ".txt".toList, 1⟩]
    chunks := [⟨1, 1, 0, wText⟩]
    nextDocId := 2, nextChunkId := 2, index := [] }

/-- A store whose single chunk has content `"abc"`. -/
def abcState : KBState :=
  { docs := [⟨1, "f.txt".toList, "h2".toList, ".txt".toList, 1⟩]
    chunks := [⟨1, 1, 0, "abc".toList⟩]
    nextDocId := 2, nextChunkId := 2, index := [] }

/-- A store that already holds a document with fingerprint `"h1"`. -/
def wStateH : KBState :=
  { docs := [⟨5, "old.txt".toList, "h1".toList, ".txt".toList, 1⟩]
    chunks := [⟨3, 5, 0, "old text.".toList⟩]
    nextDocId := 6, nextChunkId := 4, index := [] }

/-! ## General lemmas about the chunking loop -/

theorem chunkLoop_step (text : List Char) (size ov : Nat) (s : Int)
    (fuel : Nat) (acc : List (List Char)) (hs : s < (text.length : Int)) :
    chunkLoop text size ov (fuel + 1) s acc =
      chunkLoop text size ov fuel (nextEnd text size s - ov)
        (if pyStrip (pySlice text s (nextEnd text size s)) ≠ [] then
          acc ++ [pyStrip (pySlice text s (nextEnd text size s))] else acc) := by
  rw [chunkLoop]
  rw [if_pos hs]

theorem chunkLoop_exit (text : List Char) (size ov : Nat) (s : Int)
    (fuel : Nat) (acc : List (List Char)) (hs : ¬ s < (text.length : Int)) :
    chunkLoop text size ov (fuel + 1) s acc = some acc := by
  rw [chunkLoop]
  rw [if_neg hs]

/-- If an iteration maps the window start to itself, the loop never
terminates from that start: every fuel is exhausted. -/
theorem chunkLoop_stuck (text : List Char) (size ov : Nat) (s : Int)
    (hs : s < (text.length : Int)) (hfix : nextEnd text size s - (ov : Int) = s) :
    ∀ fuel acc, chunkLoop text size ov fuel s acc = none := by
  intro fuel
  induction fuel with
  | zero => intro acc; rfl
  | succ n ih =>
    intro acc
    rw [chunkLoop_step text size ov s n acc hs, hfix]
    exact ih _

theorem dropWhile_head_not (p : Char → Bool) (l : List Char) :
    ∀ x xs, l.dropWhile p = x :: xs → p x = false := by
  induction l with
  | nil => intro x xs h; cases h
  | cons a as ih =>
    intro x xs h
    rw [List.dropWhile_cons] at h
    by_cases hp : p a
    · rw [if_pos hp] at h; exact ih x xs h
    · rw [if_neg hp] at h
      cases h
      simpa using hp

theorem dropWhile_idem (p : Char → Bool) (l : List Char) :
    (l.dropWhile p).dropWhile p = l.dropWhile p := by
  cases h : l.dropWhile p with
  | nil => simp
  | cons x xs =>
    have hx := dropWhile_head_not p l x xs h
    rw [List.dropWhile_cons, if_neg (by simp [hx])]

theorem getLast?_dropWhile (p : Char → Bool) (l : List Char)
    (h : l.dropWhile p ≠ []) :
    (l.dropWhile p).getLast? = l.getLast? := by
  obtain ⟨t, ht⟩ := List.dropWhile_suffix (l := l) p
  conv_rhs => rw [← ht]
  rw [List.getLast?_append]
  cases hd : (l.dropWhile p).getLast? with
  | none => exact absurd (List.getLast?_eq_none_iff.mp hd) h
  | some x => rfl

/-- `strip` is idempotent: stripping a stripped string changes nothing. -/
theorem pyStrip_idem (l : List Char) : pyStrip (pyStrip l) = pyStrip l := by
  set p := Char.isWhitespace with hp
  set m := l.dropWhile p with hm
  set r := m.reverse.dropWhile p with hr
  have hstrip : pyStrip l = r.reverse := rfl
  have hA : r.reverse.dropWhile p = r.reverse := by
    cases hx : r.reverse with
    | nil => simp [hx]
    | cons x xs =>
      have hrne : r ≠ [] := by
        intro h0; rw [h0] at hx; cases hx
      have hmne : m.reverse ≠ [] := by
        intro h0
        apply hrne
        rw [hr, h0]
        simp
      have hgl : r.getLast? = m.reverse.getLast? := by
        rw [hr]; exact getLast?_dropWhile p m.reverse (by rw [← hr]; exact hrne)
      have hhead : r.reverse.head? = m.head? := by
        rw [List.head?_reverse, hgl, List.getLast?_reverse]
      have hm0 : m.head? = some x := by
        rw [← hhead, hx]; rfl
      obtain ⟨ms, hms⟩ : ∃ ms, m = x :: ms := by
        cases hmm : m with
        | nil => rw [hmm] at hm0; cases hm0
        | cons y ys =>
          rw [hmm] at hm0
          cases hm0
          exact ⟨ys, rfl⟩
      have hxw : p x = false := dropWhile_head_not p l x ms (by rw [← hm, hms])
      rw [List.dropWhile_cons, if_neg (by simp [hxw])]
  show ((r.reverse.dropWhile p).reverse.dropWhile p).reverse = r.reverse
  rw [hA, List.reverse_reverse, hr, dropWhile_idem]

/-- Loop invariant: every chunk the loop appends is stripped and
non-empty. -/
theorem chunkLoop_trimmed (text : List Char) (size ov : Nat) :
    ∀ fuel (start : Int) acc res,
      (∀ c ∈ acc, pyStrip c = c ∧ c ≠ []) →
      chunkLoop text size ov fuel start acc = some res →
      ∀ c ∈ res, pyStrip c = c ∧ c ≠ [] := by
  intro fuel
  induction fuel with
  | zero =>
    intro start acc res hacc h
    cases h
  | succ n ih =>
    intro start acc res hacc h
    by_cases hs : start < (text.length : Int)
    · rw [chunkLoop_step text size ov start n acc hs] at h
      refine ih _ _ _ ?_ h
      by_cases hne : pyStrip (pySlice text start (nextEnd text size start)) ≠ []
      · rw [if_pos hne]
        intro c hc
        rcases List.mem_append.mp hc with hc | hc
        · exact hacc c hc
        · rcases List.mem_singleton.mp hc with rfl
          exact ⟨pyStrip_idem _, hne⟩
      · rw [if_neg hne]
        exact hacc
    · rw [chunkLoop_exit text size ov start n acc hs] at h
      cases h
      exact hacc

/-! ## Claims C1, C4, C5: the chunker -/

/-- C1 (code bug).  The spec demands that `chunk_text` terminate whenever
`overlap < max_size`, but with the default parameters
(`chunk_size = 1000 > 200 = overlap`) the loop runs forever on `c1Text`:
the only sentence-terminal character of the window `[602, 1602)` sits at
index 801, so `end` is set to `802` and the next start is `802 - 200 = 602`
again — the window does not advance.  For every fuel the loop is still
running. -/
theorem chunk_text_nonterminating_despite_small_overlap :
    (200 < 1000) ∧
    nextEnd c1Text 1000 602 - (200 : Int) = 602 ∧
    ∀ fuel, chunkTextFuel fuel c1Text 1000 200 = none := by
  refine ⟨by norm_num, by decide, fun fuel => ?_⟩
  rw [chunkTextFuel, if_neg (by decide)]
  cases fuel with
  | zero => rfl
  | succ n =>
    rw [chunkLoop_step c1Text 1000 200 0 n [] (by decide)]
    have h1 : nextEnd c1Text 1000 0 - ((200 : Nat) : Int) = 602 := by decide
    rw [h1]
    exact chunkLoop_stuck c1Text 1000 200 602 (by decide) (by decide) n _

/-- C4 (counterexample).  A whitespace-only input shorter than `max_size`
is returned as a single raw, untrimmed chunk: the early return
`if len(text) <= chunk_size: return [text]` performs no trimming and no
dropping, contradicting "returns exactly one chunk equal to the trimmed
input" and "a whitespace-only input yields no chunks". -/
theorem chunk_text_short_input_not_trimmed_counterexample :
    chunkTextFuel 1 "   ".toList 1000 200 = some ["   ".toList] ∧
    pyStrip "   ".toList = [] ∧
    "   ".toList ≠ ([] : List Char) := by
  refine ⟨rfl, by decide, by decide⟩

/-- C4 (amended).  Text no longer than `max_size` is returned as one chunk
equal to the raw input (untrimmed, even when whitespace-only); only on the
long-text path is every produced chunk stripped of leading/trailing
whitespace with empty-after-trim chunks dropped. -/
theorem chunk_text_short_identity_long_trimmed :
    (∀ fuel (text : List Char) chunkSize overlap,
        text.length ≤ chunkSize →
        chunkTextFuel fuel text chunkSize overlap = some [text]) ∧
    (∀ fuel (text : List Char) chunkSize overlap res,
        chunkSize < text.length →
        chunkTextFuel fuel text chunkSize overlap = some res →
        ∀ c ∈ res, pyStrip c = c ∧ c ≠ []) := by
  constructor
  · intro fuel text chunkSize overlap h
    rw [chunkTextFuel, if_pos h]
  · intro fuel text chunkSize overlap res h hres
    rw [chunkTextFuel, if_neg (by omega)] at hres
    exact chunkLoop_trimmed text chunkSize overlap fuel 0 [] res (by simp) hres

/-- Witness for C4: the short branch at `"hi"`, the long branch at
`"ab cd ef"` with window 3 / overlap 1 (its chunks are all trimmed and
non-empty). -/
theorem chunk_text_short_identity_long_trimmed_witness :
    chunkTextFuel 1 "hi".toList 1000 200 = some ["hi".toList] ∧
    ∀ c ∈ ["ab".toList, "cd".toList, "d e".toList, "ef".toList],
      pyStrip c = c ∧ c ≠ [] := by
  constructor
  · exact chunk_text_short_identity_long_trimmed.1 1 "hi".toList 1000 200 (by decide)
  · exact chunk_text_short_identity_long_trimmed.2 10 "ab cd ef".toList 3 1
      ["ab".toList, "cd".toList, "d e".toList, "ef".toList] (by decide) (by decide)

theorem rfindGo_not_mem (c : Char) (a b : Nat) :
    ∀ (xs : List Char) (i : Nat) (acc : Int),
      (∀ x ∈ xs, x ≠ c) → rfindGo c a b xs i acc = acc := by
  intro xs
  induction xs with
  | nil => intro i acc _; rfl
  | cons x xs ih =>
    intro i acc h
    rw [rfindGo, if_neg (fun hc => h x (by simp) hc.2.2)]
    exact ih _ _ (fun y hy => h y (by simp [hy]))

theorem rfind_not_mem (l : List Char) (c : Char) (s e : Int)
    (h : ∀ x ∈ l, x ≠ c) : rfind l c s e = -1 :=
  rfindGo_not_mem c _ _ l 0 (-1) h

/-- On a text containing no sentence-terminal punctuation the window never
shrinks: `end` is always `start + chunk_size`. -/
theorem nextEnd_no_punct (text : List Char) (chunkSize : Nat) (start : Int)
    (h0 : 0 ≤ start)
    (h : ∀ c ∈ text, c ≠ '.' ∧ c ≠ '!' ∧ c ≠ '?') :
    nextEnd text chunkSize start = start + chunkSize := by
  rw [nextEnd]
  by_cases he : start + (chunkSize : Int) < (text.length : Int)
  · rw [if_pos he]
    rw [rfind_not_mem text '.' _ _ (fun x hx => (h x hx).1),
      rfind_not_mem text '!' _ _ (fun x hx => (h x hx).2.1),
      rfind_not_mem text '?' _ _ (fun x hx => (h x hx).2.2)]
    rw [if_neg (by omega : ¬ (max (-1 : Int) (max (-1) (-1)) > start))]
  · rw [if_neg he]

theorem chunkWindowsLoop_step (text : List Char) (size ov : Nat) (s : Int)
    (fuel : Nat) (ws : List (Int × Int)) (hs : s < (text.length : Int)) :
    chunkWindowsLoop text size ov (fuel + 1) s ws =
      chunkWindowsLoop text size ov fuel (nextEnd text size s - ov)
        (ws ++ [(s, nextEnd text size s)]) := by
  rw [chunkWindowsLoop]
  rw [if_pos hs]

theorem chunkWindowsLoop_exit (text : List Char) (size ov : Nat) (s : Int)
    (fuel : Nat) (ws : List (Int × Int)) (hs : ¬ s < (text.length : Int)) :
    chunkWindowsLoop text size ov (fuel + 1) s ws = some ws := by
  rw [chunkWindowsLoop]
  rw [if_neg hs]

/-- C5.  On any 2500-character text with no sentence-terminal punctuation,
with `max_size = 1000` and `overlap = 200`, `chunk_text` terminates and its
loop windows are `(0,1000), (800,1800), (1600,2600), (2400,3400)`: start
offsets advance by exactly `800` per step, each window starting `200`
characters (the overlap) before the previous window's end — so consecutive
chunks share `overlap` characters of text, except after the final window
ends past the text. -/
theorem chunk_text_no_punctuation_windows_advance_800 :
    ∀ text : List Char, text.length = 2500 →
      (∀ c ∈ text, c ≠ '.' ∧ c ≠ '!' ∧ c ≠ '?') →
      chunkWindows 5 text 1000 200 =
        some [(0, 1000), (800, 1800), (1600, 2600), (2400, 3400)] ∧
      ∃ res, chunkTextFuel 5 text 1000 200 = some res := by
  intro text hlen hp
  have hne : ∀ s : Int, 0 ≤ s → nextEnd text 1000 s = s + 1000 :=
    fun s h0 => nextEnd_no_punct text 1000 s h0 hp
  have hlt : ∀ s : Int, s < 2500 → s < (text.length : Int) := by
    intro s h; rw [hlen]; exact_mod_cast h
  have hge : ¬ (3200 : Int) < (text.length : Int) := by
    rw [hlen]; norm_num
  constructor
  · rw [chunkWindows, if_neg (by omega)]
    rw [show (5 : Nat) = 4 + 1 from rfl,
      chunkWindowsLoop_step text 1000 200 0 4 [] (hlt 0 (by norm_num))]
    rw [hne 0 le_rfl]
    norm_num
    rw [show (4 : Nat) = 3 + 1 from rfl,
      chunkWindowsLoop_step text 1000 200 800 3 _ (hlt 800 (by norm_num))]
    rw [hne 800 (by norm_num)]
    norm_num
    rw [show (3 : Nat) = 2 + 1 from rfl,
      chunkWindowsLoop_step text 1000 200 1600 2 _ (hlt 1600 (by norm_num))]
    rw [hne 1600 (by norm_num)]
    norm_num
    rw [show (2 : Nat) = 1 + 1 from rfl,
      chunkWindowsLoop_step text 1000 200 2400 1 _ (hlt 2400 (by norm_num))]
    rw [hne 2400 (by norm_num)]
    norm_num
    rw [show (1 : Nat) = 0 + 1 from rfl, chunkWindowsLoop_exit text 1000 200 3200 0 _ hge]
  · rw [chunkTextFuel, if_neg (by omega)]
    rw [show (5 : Nat) = 4 + 1 from rfl,
      chunkLoop_step text 1000 200 0 4 [] (hlt 0 (by norm_num))]
    rw [hne 0 le_rfl]
    norm_num
    rw [show (4 : Nat) = 3 + 1 from rfl,
      chunkLoop_step text 1000 200 800 3 _ (hlt 800 (by norm_num))]
    rw [hne 800 (by norm_num)]
    norm_num
    rw [show (3 : Nat) = 2 + 1 from rfl,
      chunkLoop_step text 1000 200 1600 2 _ (hlt 1600 (by norm_num))]
    rw [hne 1600 (by norm_num)]
    norm_num
    rw [show (2 : Nat) = 1 + 1 from rfl,
      chunkLoop_step text 1000 200 2400 1 _ (hlt 2400 (by norm_num))]
    rw [hne 2400 (by norm_num)]
    norm_num
    rw [show (1 : Nat) = 0 + 1 from rfl, chunkLoop_exit text 1000 200 3200 0 _ hge]
    exact ⟨_, rfl⟩

/-- Witness for C5 at the concrete text `'a' * 2500`. -/
theorem chunk_text_no_punctuation_windows_advance_800_witness :
    chunkWindows 5 (List.replicate 2500 'a') 1000 200 =
      some [(0, 1000), (800, 1800), (1600, 2600), (2400, 3400)] ∧
    ∃ res, chunkTextFuel 5 (List.replicate 2500 'a') 1000 200 = some res :=
  chunk_text_no_punctuation_windows_advance_800 (List.replicate 2500 'a')
    (by simp)
    (by intro c hc; rcases (List.eq_of_mem_replicate hc) with rfl; decide)

/-! ## General lemmas about `LIKE` matching -/

theorem likeMatch_cons (c : Char) (ps s : List Char) :
    likeMatch (c :: ps) s =
      if c = '%' then s.tails.any (likeMatch ps)
      else
        match s with
        | [] => false
        | x :: xs => (decide (c = '_') || decide (c = x)) && likeMatch ps xs := by
  rw [likeMatch.eq_def]

theorem likeMatch_percent_iff (ps s : List Char) :
    likeMatch ('%' :: ps) s = true ↔
      ∃ a b, s = a ++ b ∧ likeMatch ps b = true := by
  rw [likeMatch_cons, if_pos rfl]
  rw [List.any_eq_true]
  constructor
  · rintro ⟨t, ht, hm⟩
    obtain ⟨a, rfl⟩ := (List.mem_tails t s).mp ht
    exact ⟨a, t, rfl, hm⟩
  · rintro ⟨a, b, rfl, hb⟩
    exact ⟨b, (List.mem_tails b _).mpr ⟨a, rfl⟩, hb⟩

theorem likeMatch_one_percent (s : List Char) : likeMatch ['%'] s = true := by
  rw [likeMatch_percent_iff]
  exact ⟨s, [], by simp, rfl⟩

theorem likeMatch_all (s : List Char) : likeMatch ['%', '%'] s = true := by
  rw [likeMatch_percent_iff]
  exact ⟨s, [], by simp, likeMatch_one_percent []⟩

/-- Matching a wildcard-free literal prefix of a pattern peels that literal
off the subject. -/
theorem likeMatch_literal_iff :
    ∀ (t : List Char), (∀ c ∈ t, c ≠ '%' ∧ c ≠ '_') →
      ∀ (ps s : List Char),
        (likeMatch (t ++ ps) s = true ↔
          ∃ r, s = t ++ r ∧ likeMatch ps r = true) := by
  intro t
  induction t with
  | nil => intro _ ps s; simp
  | cons c ts ih =>
    intro ht ps s
    have hc := ht c (by simp)
    have hts : ∀ x ∈ ts, x ≠ '%' ∧ x ≠ '_' := fun x hx => ht x (by simp [hx])
    cases s with
    | nil =>
      rw [List.cons_append, likeMatch_cons]
      rw [if_neg hc.1]
      simp
    | cons x xs =>
      rw [List.cons_append, likeMatch_cons, if_neg hc.1]
      simp only [Bool.and_eq_true, Bool.or_eq_true, decide_eq_true_eq]
      rw [ih hts ps xs]
      constructor
      · rintro ⟨hcx, r, rfl, hr⟩
        rcases hcx with h | h
        · exact absurd h hc.2
        · subst h
          exact ⟨r, rfl, hr⟩
      · rintro ⟨r, hr, hlr⟩
        rw [List.cons_append] at hr
        injection hr with h1 h2
        subst h1
        exact ⟨Or.inr rfl, r, h2, hlr⟩

/-- The pattern `'%' + '%'.join(tokens) + '%'` matches a string exactly when
the (wildcard-free) tokens appear in it, in order. -/
theorem likeMatch_join_iff :
    ∀ (ts : List (List Char)), (∀ t ∈ ts, ∀ c ∈ t, c ≠ '%' ∧ c ≠ '_') →
      ∀ s : List Char,
        (likeMatch ('%' :: (joinPercent ts ++ ['%'])) s = true ↔
          tokensInOrder ts s) := by
  intro ts
  induction ts with
  | nil =>
    intro _ s
    rw [show joinPercent [] ++ ['%'] = ['%'] from rfl]
    rw [tokensInOrder]
    simp [likeMatch_all]
  | cons t ts ih =>
    intro hts s
    have hn : ∀ c ∈ t, c ≠ '%' ∧ c ≠ '_' := hts t (by simp)
    have hts' : ∀ u ∈ ts, ∀ c ∈ u, c ≠ '%' ∧ c ≠ '_' :=
      fun u hu => hts u (by simp [hu])
    rw [tokensInOrder]
    cases ts with
    | nil =>
      rw [show joinPercent [t] ++ ['%'] = t ++ ['%'] from rfl]
      rw [likeMatch_percent_iff]
      constructor
      · rintro ⟨a, b, rfl, hb⟩
        obtain ⟨r, rfl, _⟩ := (likeMatch_literal_iff t hn ['%'] b).mp hb
        exact ⟨a, r, by rw [List.append_assoc], trivial⟩
      · rintro ⟨a, r, hs, _⟩
        exact ⟨a, t ++ r, by rw [hs, List.append_assoc],
          (likeMatch_literal_iff t hn ['%'] _).mpr
            ⟨r, rfl, likeMatch_one_percent r⟩⟩
    | cons u us =>
      rw [show joinPercent (t :: u :: us) ++ ['%'] =
        t ++ ('%' :: (joinPercent (u :: us) ++ ['%'])) from by
          rw [joinPercent]; simp]
      rw [likeMatch_percent_iff]
      constructor
      · rintro ⟨a, b, rfl, hb⟩
        obtain ⟨r, rfl, hr⟩ := (likeMatch_literal_iff t hn _ b).mp hb
        exact ⟨a, r, by rw [List.append_assoc], (ih hts' r).mp hr⟩
      · rintro ⟨a, r, hs, hr⟩
        exact ⟨a, t ++ r, by rw [hs, List.append_assoc],
          (likeMatch_literal_iff t hn _ _).mpr ⟨r, rfl, (ih hts' r).mpr hr⟩⟩

theorem keywordSearch_score (s : KBState) (query : List Char)
    (maxResults : Nat) :
    ∀ r ∈ keywordSearch s query maxResults, r.relevanceScore = 1/2 := by
  intro r hr
  simp only [keywordSearch, List.mem_map] at hr
  obtain ⟨cd, _, rfl⟩ := hr
  rfl

/-! ## Claims C2, C6, C9, C10: the retriever -/

/-- C2.  `search_knowledge` is a total function of the semantic-path
outcome: whenever the semantic path is unavailable (`chroma_client`/
`collection` falsy) or errors (query raised / malformed response), the
result is exactly the keyword path's, and every result on that path carries
`relevance_score = 0.5`.  No failure of the semantic path escapes to the
caller. -/
theorem search_knowledge_falls_back_and_scores_half
    (sem : SemOutcome) (s : KBState) (query : List Char) (maxResults : Nat)
    (h : sem = .unavailable ∨ sem = .error) :
    searchKnowledge sem s query maxResults = keywordSearch s query maxResults ∧
    ∀ r ∈ searchKnowledge sem s query maxResults, r.relevanceScore = 1/2 := by
  rcases h with rfl | rfl
  · exact ⟨rfl, keywordSearch_score s query maxResults⟩
  · exact ⟨rfl, keywordSearch_score s query maxResults⟩

/-- Witness for C2 at a failing semantic path over `abcState`. -/
theorem search_knowledge_falls_back_and_scores_half_witness :
    searchKnowledge .error abcState "x".toList 5 =
      keywordSearch abcState "x".toList 5 ∧
    ∀ r ∈ searchKnowledge .error abcState "x".toList 5,
      r.relevanceScore = 1/2 :=
  search_knowledge_falls_back_and_scores_half .error abcState "x".toList 5
    (Or.inr rfl)

/-- C6 (counterexample).  The query tokens are spliced into the `LIKE`
pattern unescaped, so a token containing the `LIKE` wildcard `_` matches
chunks in which the token never appears: query `"a_c"` matches the chunk
`"abc"` (the keyword search returns it), although the token `"a_c"` does
not appear in the chunk content — the claimed "matches iff all tokens
appear in sequence" equivalence fails. -/
theorem search_keyword_wildcard_counterexample :
    (searchKnowledge .unavailable abcState "a_c".toList 5).length = 1 ∧
    ¬ tokensInOrder (pySplit (pyLower "a_c".toList)) (pyLower "abc".toList) := by
  constructor
  · decide
  · intro h
    have e1 : pySplit (pyLower "a_c".toList) = ["a_c".toList] := by decide
    have e2 : pyLower "abc".toList = "abc".toList := by decide
    rw [e1, e2] at h
    rw [tokensInOrder] at h
    obtain ⟨a, b, hab, _⟩ := h
    have : '_' ∈ "abc".toList := by
      rw [hab]; simp
    exact absurd this (by decide)

/-- C6 (amended).  For queries none of whose whitespace-split tokens
contains a `LIKE` metacharacter (`%` or `_`), the keyword path lower-cases
the query, splits it on whitespace, and matches content exactly when all
tokens appear in it in sequence (order-sensitive, wildcard-separated — not
independent multi-term AND); it returns at most `max_results` rows, each
with `relevance_score = 0.5`.  Tokens containing `%` or `_` are instead
interpreted as wildcards. -/
theorem search_keyword_tokens_in_sequence
    (s : KBState) (query : List Char) (maxResults : Nat)
    (hq : ∀ t ∈ pySplit (pyLower query), ∀ c ∈ t, c ≠ '%' ∧ c ≠ '_') :
    (∀ r ∈ keywordSearch s query maxResults, r.relevanceScore = 1/2) ∧
    (keywordSearch s query maxResults).length ≤ maxResults ∧
    (∀ content : List Char,
      likeMatch (buildPattern query) content = true ↔
        tokensInOrder (pySplit (pyLower query)) content) := by
  refine ⟨keywordSearch_score s query maxResults, ?_, ?_⟩
  · simp only [keywordSearch, List.length_map, List.length_take]
    exact min_le_left _ _
  · intro content
    simp only [buildPattern]
    exact likeMatch_join_iff _ hq content

/-- Witness for C6 (amended) at the two-token query `"test doc"`. -/
theorem search_keyword_tokens_in_sequence_witness :
    (∀ r ∈ keywordSearch abcState "test doc".toList 5,
      r.relevanceScore = 1/2) ∧
    (keywordSearch abcState "test doc".toList 5).length ≤ 5 ∧
    (∀ content : List Char,
      likeMatch (buildPattern "test doc".toList) content = true ↔
        tokensInOrder (pySplit (pyLower "test doc".toList)) content) :=
  search_keyword_tokens_in_sequence abcState "test doc".toList 5 (by decide)

/-- C9.  A semantic query that succeeds with zero hits returns the empty
list for every store, query and limit — the keyword fallback is not
consulted (it is taken only on `unavailable`/`error`, never on a
legitimate empty semantic result). -/
theorem search_semantic_empty_returns_empty :
    ∀ (hasDistances : Bool) (s : KBState) (query : List Char)
      (maxResults : Nat),
      searchKnowledge (.ok [] hasDistances) s query maxResults = [] :=
  fun _ _ _ _ => rfl

theorem pySplitAux_ws : ∀ l : List Char,
    (∀ c ∈ l, c.isWhitespace) → pySplitAux l [] = [] := by
  intro l
  induction l with
  | nil => intro _; rfl
  | cons c cs ih =>
    intro h
    rw [pySplitAux]
    rw [if_pos (h c (by simp))]
    rw [if_pos rfl]
    exact ih (fun x hx => h x (by simp [hx]))

theorem toLower_whitespace (c : Char) (h : c.isWhitespace) : c.toLower = c := by
  simp only [Char.isWhitespace, Bool.or_eq_true, decide_eq_true_eq] at h
  rcases h with ((rfl | rfl) | rfl) | rfl <;> decide

theorem pyLower_whitespace (q : List Char) (h : ∀ c ∈ q, c.isWhitespace) :
    pyLower q = q := by
  induction q with
  | nil => rfl
  | cons c cs ih =>
    rw [pyLower, List.map_cons, toLower_whitespace c (h c (by simp))]
    rw [show List.map Char.toLower cs = pyLower cs from rfl,
      ih (fun x hx => h x (by simp [hx]))]

theorem kwRows_match_all (s : KBState) :
    kwRows s ['%', '%'] = joinedRows s := by
  simp only [kwRows, joinedRows]
  apply List.filterMap_congr
  intro c _
  rw [if_pos (likeMatch_all _)]

/-- C10.  For an empty or whitespace-only query the keyword path builds the
pattern `"%%"`, which matches every chunk: `search_knowledge` returns the
first `max_results` chunk rows in ascending id order (joined with their
documents), each scored `0.5`, rather than an empty result. -/
theorem search_blank_query_matches_everything
    (s : KBState) (query : List Char) (maxResults : Nat)
    (hq : ∀ c ∈ query, c.isWhitespace) :
    searchKnowledge .unavailable s query maxResults =
      ((joinedRows s).take maxResults).map
        (fun cd =>
          { content := cd.1.content
            filename := cd.2.filename
            chunkIndex := cd.1.chunkIndex
            relevanceScore := 1/2 }) := by
  show keywordSearch s query maxResults = _
  have h2 : pySplit (pyLower query) = [] := by
    rw [pyLower_whitespace query hq]
    exact pySplitAux_ws query hq
  have hpat : buildPattern query = ['%', '%'] := by
    rw [buildPattern, h2]
    rfl
  rw [keywordSearch, hpat, kwRows_match_all]

/-- Witness for C10: the blank query `"  "` over `abcState` returns its one
chunk. -/
theorem search_blank_query_matches_everything_witness :
    searchKnowledge .unavailable abcState "  ".toList 5 =
      ((joinedRows abcState).take 5).map
        (fun cd =>
          { content := cd.1.content
            filename := cd.2.filename
            chunkIndex := cd.1.chunkIndex
            relevanceScore := 1/2 }) :=
  search_blank_query_matches_everything abcState "  ".toList 5 (by decide)

/-! ## General lemmas about `process_document` -/

/-- The duplicate gate: when the fingerprint is already present,
`process_document` returns `True` and leaves the store untouched — for
every extraction environment, chunking fuel and callback, because the gate
fires before any extraction or chunking work. -/
theorem processDocument_duplicate (env : IngestEnv) (fuel : Nat)
    (cb : Option (List Char → Bool)) (s : KBState) (f : FileRef)
    (b : List Nat) (hb : f.bytes = some b)
    (hdup : s.docs.any (fun d => d.fileHash == env.hashFn b) = true) :
    processDocument env fuel cb s f = some (true, s) := by
  simp only [processDocument, processDocumentCb, hb]
  rw [if_pos hdup]
  rfl

/-- Inversion of a call that returned `True` with no callback: either the
duplicate gate fired and the store is unchanged, or the fingerprint was
absent and exactly one document row (carrying that fingerprint and the next
autoincrement id) was appended. -/
theorem processDocument_true_inv (env : IngestEnv) (fuel : Nat)
    (s s1 : KBState) (f : FileRef) (b : List Nat) (hb : f.bytes = some b)
    (h : processDocument env fuel none s f = some (true, s1)) :
    (s.docs.any (fun d => d.fileHash == env.hashFn b) = true ∧ s1 = s) ∨
    (s.docs.any (fun d => d.fileHash == env.hashFn b) = false ∧
      ∃ n ft,
        s1.docs = s.docs ++ [⟨s.nextDocId, f.base, env.hashFn b, ft, n⟩]) := by
  simp only [processDocument, processDocumentCb, hb] at h
  by_cases hdup : s.docs.any (fun d => d.fileHash == env.hashFn b) = true
  · rw [if_pos hdup] at h
    simp only [Option.map_some'] at h
    injection h with h
    injection h with _ h
    exact Or.inl ⟨hdup, h.symm⟩
  · rw [if_neg hdup] at h
    simp only [invokeCb, Bool.not_true, Bool.false_eq_true, if_false] at h
    split at h
    · simp at h
    · simp at h
    · rename_i text heq
      split at h
      · simp at h
      · split at h
        · simp at h
        · rename_i cs hchunk
          simp only [Option.map_some'] at h
          injection h with h
          injection h with _ h
          refine Or.inr ⟨by simpa using hdup, cs.length, pyLower f.ext, ?_⟩
          rw [← h]
          by_cases hc : (env.chromaAvailable && env.chromaAddOk) = true
          · rw [if_pos hc]
          · rw [if_neg hc]

/-- Forward run of a successful fresh ingestion: absent fingerprint,
successful extraction, non-empty text and terminating chunking yield
`True` with the new document row and its chunk rows appended. -/
theorem processDocument_insert (env : IngestEnv) (fuel : Nat) (s : KBState)
    (f : FileRef) (b : List Nat) (text : List Char) (cs : List (List Char))
    (hb : f.bytes = some b)
    (hdup : s.docs.any (fun d => d.fileHash == env.hashFn b) = false)
    (hext : extractDispatch env f (pyLower f.ext) = some (.ok text))
    (hstrip : pyStrip text ≠ [])
    (hchunk : chunkTextFuel fuel text 1000 200 = some cs) :
    ∃ s', processDocument env fuel none s f = some (true, s') ∧
      s'.docs = s.docs ++
        [⟨s.nextDocId, f.base, env.hashFn b, pyLower f.ext, cs.length⟩] ∧
      s'.chunks = s.chunks ++ cs.enum.map
        (fun ic => ⟨s.nextChunkId + ic.1, s.nextDocId, ic.1, ic.2⟩) := by
  simp only [processDocument, processDocumentCb, hb]
  rw [if_neg (by simp [hdup])]
  simp only [invokeCb, Bool.not_true, Bool.false_eq_true, if_false]
  split
  · rename_i heq
    rw [hext] at heq
    cases heq
  · rename_i heq
    rw [hext] at heq
    cases heq
  · rename_i text' heq
    rw [hext] at heq
    injection heq with heq
    injection heq with heq
    subst heq
    rw [if_neg (by simpa using hstrip)]
    split
    · rename_i heq
      rw [hchunk] at heq
      cases heq
    · rename_i cs' heq
      rw [hchunk] at heq
      injection heq with heq
      subst heq
      refine ⟨_, rfl, ?_, ?_⟩
      · by_cases hc : (env.chromaAvailable && env.chromaAddOk) = true
        · rw [if_pos hc]
        · rw [if_neg hc]
      · by_cases hc : (env.chromaAvailable && env.chromaAddOk) = true
        · rw [if_pos hc]
        · rw [if_neg hc]

/-! ## Claims C3, C7, C8: ingestion -/

/-- C3.  Ingestion is idempotent on file bytes: if a call on bytes `b`
reported success, a second call on any file with the same bytes returns
`True` and leaves the store exactly as it was, the store then holding
exactly one document row with that fingerprint.  The second call's result
holds for every extraction environment (sharing only the deterministic
hash function) and every chunking fuel: the duplicate is detected by
fingerprint before any extraction or chunking work. -/
theorem process_document_idempotent_on_bytes
    (env env' : IngestEnv) (fuel fuel' : Nat) (s0 s1 : KBState)
    (f1 f2 : FileRef) (b : List Nat)
    (hb1 : f1.bytes = some b) (hb2 : f2.bytes = some b)
    (henv : env'.hashFn = env.hashFn)
    (hcount : hashCount s0 (env.hashFn b) ≤ 1)
    (h1 : processDocument env fuel none s0 f1 = some (true, s1)) :
    processDocument env' fuel' none s1 f2 = some (true, s1) ∧
    hashCount s1 (env.hashFn b) = 1 := by
  have hone : hashCount s1 (env.hashFn b) = 1 := by
    rcases processDocument_true_inv env fuel s0 s1 f1 b hb1 h1 with
      ⟨hdup, rfl⟩ | ⟨hdup, n, ft, hdocs⟩
    · obtain ⟨d, hd, hbeq⟩ := List.any_eq_true.mp hdup
      have hmem : d ∈ s1.docs.filter (fun d => d.fileHash == env.hashFn b) :=
        List.mem_filter.mpr ⟨hd, hbeq⟩
      have hpos : 0 < hashCount s1 (env.hashFn b) := by
        rw [hashCount]
        exact List.length_pos.mpr (List.ne_nil_of_mem hmem)
      omega
    · have hzero : s0.docs.filter (fun d => d.fileHash == env.hashFn b) = [] :=
        List.filter_eq_nil_iff.mpr (List.any_eq_false.mp hdup)
      rw [hashCount, hdocs, List.filter_append, hzero]
      simp
  refine ⟨?_, hone⟩
  have hany : s1.docs.any (fun d => d.fileHash == env'.hashFn b) = true := by
    rw [henv]
    rw [List.any_eq_true]
    have : s1.docs.filter (fun d => d.fileHash == env.hashFn b) ≠ [] := by
      intro h0
      rw [hashCount, h0] at hone
      cases hone
    obtain ⟨d, hd⟩ := List.exists_mem_of_ne_nil _ this
    exact ⟨d, (List.mem_filter.mp hd).1, (List.mem_filter.mp hd).2⟩
  exact processDocument_duplicate env' fuel' none s1 f2 b hb2 hany

/-- Witness for C3: ingesting `wFile` into the empty store and calling
again on the same bytes. -/
theorem process_document_idempotent_on_bytes_witness :
    processDocument wEnv 10 none wState1 wFile = some (true, wState1) ∧
    hashCount wState1 (wEnv.hashFn [72, 105]) = 1 :=
  process_document_idempotent_on_bytes wEnv wEnv 10 10 wState0 wState1
    wFile wFile [72, 105] rfl rfl rfl (by decide) (by decide)

/-- C7.  `clear_knowledge_base` removes every document and chunk row in one
state transition (one SQLite transaction in the source: both `DELETE`s are
committed together, so no partial clear is observable by a later call):
afterwards `get_document_stats` reports zero documents, zero chunks and no
file types, and a fingerprint that was present before the reset is
re-ingested as new — `process_document` takes the insert path and creates a
fresh document row rather than the duplicate-skip path. -/
theorem clear_knowledge_base_resets
    (ca dk : Bool) (s : KBState) (env : IngestEnv) (fuel : Nat)
    (f : FileRef) (b : List Nat) (text : List Char) (cs : List (List Char))
    (_hprev : s.docs.any (fun d => d.fileHash == env.hashFn b) = true)
    (hb : f.bytes = some b)
    (hext : extractDispatch env f (pyLower f.ext) = some (.ok text))
    (hstrip : pyStrip text ≠ [])
    (hchunk : chunkTextFuel fuel text 1000 200 = some cs) :
    getDocumentStats (clearKnowledgeBase ca dk s) =
      { totalDocuments := 0, totalChunks := 0, fileTypes := [] } ∧
    ∃ s', processDocument env fuel none (clearKnowledgeBase ca dk s) f =
        some (true, s') ∧
      s'.docs = [⟨s.nextDocId, f.base, env.hashFn b, pyLower f.ext,
        cs.length⟩] := by
  refine ⟨rfl, ?_⟩
  obtain ⟨s', hrun, hdocs, _⟩ :=
    processDocument_insert env fuel (clearKnowledgeBase ca dk s) f b text cs
      hb rfl hext hstrip hchunk
  exact ⟨s', hrun, by simpa using hdocs⟩

/-- Witness for C7 over `wStateH` (which already holds fingerprint
`"h1"`). -/
theorem clear_knowledge_base_resets_witness :
    getDocumentStats (clearKnowledgeBase true true wStateH) =
      { totalDocuments := 0, totalChunks := 0, fileTypes := [] } ∧
    ∃ s', processDocument wEnv 10 none (clearKnowledgeBase true true wStateH)
        wFile = some (true, s') ∧
      s'.docs = [⟨wStateH.nextDocId, wFile.base, wEnv.hashFn [72, 105],
        pyLower wFile.ext, [wText].length⟩] :=
  clear_knowledge_base_resets true true wStateH wEnv 10 wFile [72, 105]
    wText [wText] (by decide) rfl (by decide) (by decide) (by decide)

/-- C8 (counterexample).  A progress callback that raises changes both the
returned boolean and the stored rows: with a callback raising on its first
invocation the call returns `False` and inserts nothing, while the same
call with `progress_callback=None` returns `True` and inserts the document
— the exception propagates to `process_document`'s outer `except`, so the
callback is not purely observational. -/
theorem process_document_raising_callback_counterexample :
    processDocument wEnv 10 (some (fun _ => false)) wState0 wFile =
      some (false, wState0) ∧
    processDocument wEnv 10 none wState0 wFile = some (true, wState1) ∧
    wState1 ≠ wState0 := by
  refine ⟨by decide, by decide, by decide⟩

/-- C8 (amended).  For every callback that returns normally on every
message, `process_document` returns the same boolean and leaves the same
store as the call with `progress_callback=None`: the code never branches on
the callback's return value, so a non-raising callback is purely
observational. -/
theorem process_document_callback_observational
    (env : IngestEnv) (fuel : Nat) (k : List Char → Bool) (s : KBState)
    (f : FileRef) (hk : ∀ m, k m = true) :
    processDocument env fuel (some k) s f =
      processDocument env fuel none s f := by
  simp only [processDocument, processDocumentCb, invokeCb, hk,
    Bool.not_true, Bool.false_eq_true, if_false]
  split
  · rfl
  · split
    · rfl
    · split
      · rfl
      · rfl
      · split
        · rfl
        · split
          · rfl
          · rfl

/-- Witness for C8 at a trivial always-returning callback. -/
theorem process_document_callback_observational_witness :
    processDocument wEnv 10 (some (fun _ => true)) wState0 wFile =
      processDocument wEnv 10 none wState0 wFile :=
  process_document_callback_observational wEnv 10 (fun _ => true) wState0
    wFile (fun _ => rfl)

end DocProc
